import Mathlib

/-!
Shallow embedding of `video_translator.py` (repository `violet-chen/video_translation`).

The embedding models the pipeline core:
  - `format_time_srt`       (source lines 107-112)  — time-code formatter,
  - `save_srt`              (source lines 114-127)  — subtitle serializer,
  - `translate_text`        (source lines 87-95)    — one translation attempt,
  - `translate_segments`    (source lines 97-105)   — segment translator,
  - `process_video`         (source lines 152-181)  — pipeline orchestrator,
  - `process_videos`        (source lines 439-463)  — batch runner,
  - `on_files_dropped`      (source lines 368-382)  — extension filtering,
plus the path-name derivation done with `pathlib` (`stem`/`suffix`) and
`os.path` (`basename`, `splitext`).

Python floats are modelled as exact rationals (`ℚ`); the claims under test
only involve values and operations where float rounding is exact.
External collaborators (ffmpeg, whisper, the translation service) are
parameters of the embedding, as the spec treats them: functions producing
results or failures.
-/

namespace VideoTranslation

/-! ### Python numeric primitives on exact rationals -/

/-- Python `int(x)`: truncation toward zero. -/
def pyInt (q : ℚ) : Int := if q < 0 then -(⌊-q⌋) else ⌊q⌋

/-- Python float floor division `a // b` (result is the floor, as a float). -/
def pyFloorDiv (a b : ℚ) : ℚ := (⌊a / b⌋ : ℤ)

/-- Python float modulo `a % b`: `a - b * (a // b)`, sign follows the divisor. -/
def pyMod (a b : ℚ) : ℚ := a - b * (⌊a / b⌋ : ℤ)

/-- Decimal digit characters of a natural number, as Python's `str`/`%d`
renders them (`Nat.repr n = (Nat.toDigits 10 n).asString` in core). -/
def natChars (n : Nat) : List Char := Nat.toDigits 10 n

/-- Python `f"{n:0wd}"` for a natural number: zero-pad on the left to width `w`. -/
def fmtNatChars (w : Nat) (n : Nat) : List Char :=
  List.replicate (w - (natChars n).length) '0' ++ natChars n

/-- Python `f"{n:0wd}"` for an integer: the sign, when present, counts toward
the width and precedes the zero padding (`f"{-5:03d} == "-05"`). -/
def fmtIntChars (w : Nat) (n : Int) : List Char :=
  if n < 0 then '-' :: fmtNatChars (w - 1) n.natAbs else fmtNatChars w n.natAbs

/-! ### Time-code Formatter — `VideoTranslator.format_time_srt`, lines 107-112 -/

/-- Hours field: `int(seconds // 3600)`. -/
def srtHours (seconds : ℚ) : Int := pyInt (pyFloorDiv seconds 3600)

/-- Minutes field: `int((seconds % 3600) // 60)`. -/
def srtMinutes (seconds : ℚ) : Int := pyInt (pyFloorDiv (pyMod seconds 3600) 60)

/-- Seconds field: `int(seconds % 60)`. -/
def srtSecs (seconds : ℚ) : Int := pyInt (pyMod seconds 60)

/-- Milliseconds field: `int((seconds - int(seconds)) * 1000)`. -/
def srtMillis (seconds : ℚ) : Int := pyInt ((seconds - (pyInt seconds : ℤ)) * 1000)

/-- `format_time_srt`: `f"{hours:02d}:{minutes:02d}:{secs:02d},{millis:03d}"`. -/
def format_time_srt (seconds : ℚ) : String :=
  String.mk (fmtIntChars 2 (srtHours seconds) ++ ':' ::
    fmtIntChars 2 (srtMinutes seconds) ++ ':' ::
    fmtIntChars 2 (srtSecs seconds) ++ ',' ::
    fmtIntChars 3 (srtMillis seconds))

/-- The formatter would "clamp" a negative input if its output on `-1`
coincided with its output on some non-negative input (of the two-digit-hour
domain, i.e. below 100 hours).  Used to state that the code does no such
thing. -/
def clampsNegativeInput : Prop :=
  ∃ u : ℚ, 0 ≤ u ∧ u < 360000 ∧ format_time_srt (-1) = format_time_srt u

/-! ### Data model — segments (source lines 77-83: dicts with keys
`start`, `end`, `text`, and later `translated`) -/

/-- One transcribed segment.  The `translated` key is absent (`none`) until
`translate_segments` sets it. -/
structure Segment where
  start : ℚ
  /-- models the dict key `"end"` (`end` is a Lean keyword) -/
  stop : ℚ
  text : String
  translated : Option String
deriving DecidableEq

/-! ### Segment Translator — `translate_text` (lines 87-95) and
`translate_segments` (lines 97-105) -/

/-- One call to the translation collaborator: `some r` models a successful
return of `r`, `none` models the collaborator raising an exception. -/
abbrev Collaborator := String → Option String

/-- `translate_text`: returns `""` without calling the collaborator when the
text strips to empty; otherwise calls it once, and on an exception logs and
falls back to the original text.  The `try/except Exception` wrapper makes the
function total: no exception escapes. -/
def translate_text (collab : Collaborator) (text : String) : String :=
  if text.trim = "" then ""
  else
    match collab text with
    | some r => r
    | none => text

/-- `translate_segments`: sets `seg["translated"] = translate_text(seg["text"])`
for each segment in order.  (The progress log lines emitted every 10 segments
carry no data and are not modelled.) -/
def translate_segments (collab : Collaborator) : List Segment → List Segment
  | [] => []
  | s :: rest =>
    { s with translated := some (translate_text collab s.text) } ::
      translate_segments collab rest

/-! ### Subtitle Serializer — `save_srt` (lines 114-127).
Every `f.write` in the loop writes a single newline-terminated record, so the
file is modelled as the list of its lines. -/

/-- The five lines written for the segment with 1-based index `i`:
index, `start --> end`, `seg.get("translated", seg["text"])`, original text,
blank separator. -/
def segBlock (i : Nat) (s : Segment) : List String :=
  [toString i,
   format_time_srt s.start ++ " --> " ++ format_time_srt s.stop,
   s.translated.getD s.text,
   s.text,
   ""]

/-- The loop `for i, seg in enumerate(segments, 1)` of `save_srt`, carrying
the running 1-based index. -/
def saveSrtAux (i : Nat) : List Segment → List String
  | [] => []
  | s :: rest => segBlock i s ++ saveSrtAux (i + 1) rest

/-- `save_srt`: the lines of the subtitle file written for `segments`. -/
def save_srt (segments : List Segment) : List String := saveSrtAux 1 segments

/-! ### Path-name primitives.
`str.rfind(ch)` over a string modelled as a character list; file names are
character lists so that the splitting functions can be reasoned about. -/

/-- Index of the last occurrence of `c` (Python `s.rfind(c)`, `none` for -1). -/
def rfindChar (c : Char) : List Char → Option Nat
  | [] => none
  | a :: as =>
    match rfindChar c as with
    | some i => some (i + 1)
    | none => if a = c then some 0 else none

/-- `pathlib.PurePath.suffix`: the part of the name from its last dot, when
that dot is neither leading nor trailing; `[]` otherwise. -/
def pathSuffix (name : List Char) : List Char :=
  match rfindChar '.' name with
  | some i => if 0 < i ∧ i + 1 < name.length then name.drop i else []
  | none => []

/-- `pathlib.PurePath.stem`: the name with `pathSuffix` removed. -/
def pathStem (name : List Char) : List Char :=
  match rfindChar '.' name with
  | some i => if 0 < i ∧ i + 1 < name.length then name.take i else name
  | none => name

/-- `os.path.basename`: everything after the last `/` (the whole string when
there is no separator). -/
def pyBasename (p : String) : String :=
  match rfindChar '/' p.data with
  | some i => String.mk (p.data.drop (i + 1))
  | none => p

/-- `os.path.splitext(p)[1]`: the extension starts at the last dot when that
dot comes after the last path separator and some earlier character of the
base name is not a dot (leading dots of the base name never start an
extension). -/
def splitextExt (p : List Char) : List Char :=
  match rfindChar '.' p with
  | none => []
  | some di =>
    let si : Nat := match rfindChar '/' p with
      | none => 0
      | some s => s + 1
    if si ≤ di ∧ ((p.drop si).take (di - si)).any (fun ch => ch ≠ '.') then
      p.drop di
    else []

/-- A filesystem path, split as `pathlib` sees it: the parent directory and
the final component.  File-name components contain no `/`, so two paths are
equal exactly when both fields agree. -/
structure VPath where
  dir : List Char
  fname : List Char
deriving DecidableEq

/-- Rendering of a path for comparison with the spec's literal examples. -/
def VPath.render (p : VPath) : String := String.mk (p.dir ++ '/' :: p.fname)

/-! ### Pipeline Orchestrator — `process_video` (lines 152-181) -/

/-- Line 159: `f"{video_path.stem}_subtitle{video_path.suffix}"`. -/
def outputVideoName (fname : List Char) : List Char :=
  pathStem fname ++ "_subtitle".data ++ pathSuffix fname

/-- Line 161: `f"{video_path.stem}_subtitle.srt"`. -/
def outputSrtName (fname : List Char) : List Char :=
  pathStem fname ++ "_subtitle.srt".data

/-- Lines 153-162: resolve the output video path and the subtitle path.
With no explicit output directory both land in the input's directory. -/
def resolveOutputPaths (input : VPath) (outputDir : Option (List Char)) :
    VPath × VPath :=
  let odir := outputDir.getD input.dir
  (⟨odir, outputVideoName input.fname⟩, ⟨odir, outputSrtName input.fname⟩)

/-- The external collaborators of one job, as the spec treats them: the
transcoding tool's two invocations (success flags), the transcription engine's
segment sequence for the extracted audio, and the translation service. -/
structure JobEnv where
  extractOk : Bool
  transcribed : List Segment
  collab : Collaborator
  embedOk : Bool

/-- A file produced by a job: the subtitle file with its lines, or the
output video. -/
inductive FileWrite
  | srt (path : VPath) (lines : List String)
  | video (path : VPath)
deriving DecidableEq

/-- `process_video`: runs extract → transcribe → translate → save_srt → embed
with a hard sequence point after each stage, returning the job's success flag
together with the files it wrote.  An empty transcription aborts the job
("No speech detected") before any file is written. -/
def process_video (env : JobEnv) (input : VPath)
    (outputDir : Option (List Char)) : Bool × List FileWrite :=
  let paths := resolveOutputPaths input outputDir
  if !env.extractOk then (false, [])
  else if env.transcribed.isEmpty then (false, [])
  else
    let segs := translate_segments env.collab env.transcribed
    let written := [FileWrite.srt paths.2 (save_srt segs)]
    if !env.embedOk then (false, written)
    else (true, written ++ [FileWrite.video paths.1])

/-! ### Batch Runner — `MainWindow.process_videos` (lines 439-463).
The per-file job is abstracted by its outcome: `process_video` returned
`True`, returned `False`, or raised an exception with a message (caught by the
runner's inner `try`).  Model loading is the sequence point before the loop;
its failure goes to the outer `except` / error channel, which the claims here
do not touch, so the model covers the loop body and the final emissions. -/

/-- Outcome of one per-file job as seen by the batch loop. -/
inductive JobOutcome
  | ok
  | fail
  | exn (msg : String)
deriving DecidableEq

/-- `outcome.isOk` — did `process_video` return `True`. -/
def JobOutcome.isOk : JobOutcome → Bool
  | .ok => true
  | _ => false

/-- One event on the worker's signal channels. -/
inductive Event
  | progress (pct : Int) (status : String)
  | log (msg : String)
  | finished (msg : String)
deriving DecidableEq

/-- `event.isLog` — is this a `log` emission. -/
def Event.isLog : Event → Bool
  | .log _ => true
  | _ => false

/-- The status text of a `progress` emission, if any. -/
def Event.progressStatus : Event → Option String
  | .progress _ s => some s
  | _ => none

/-- Line 450: `f"Processing ({i + 1}/{total}): {os.path.basename(video_path)}"`. -/
def processingMsg (total i : Nat) (file : String) : String :=
  "Processing (" ++ toString (i + 1) ++ "/" ++ toString total ++ "): " ++
    pyBasename file

/-- Line 449: `int((i / total) * 100)` (float arithmetic, exact here). -/
def processingPct (total i : Nat) : Int := pyInt ((i : ℚ) / (total : ℚ) * 100)

/-- The loop of `process_videos` from position `i`: the events emitted and the
number of successes accumulated on the remaining files.  A job that returns
`False` adds no event beyond its progress line; a job that raises is caught
and logged with its file path; in every case the loop continues. -/
def processVideosAux (outcome : String → JobOutcome) (total : Nat) :
    Nat → List String → List Event × Nat
  | _, [] => ([], 0)
  | i, f :: rest =>
    let pev := Event.progress (processingPct total i) (processingMsg total i f)
    let tail := processVideosAux outcome total (i + 1) rest
    match outcome f with
    | .ok => (pev :: tail.1, tail.2 + 1)
    | .fail => (pev :: tail.1, tail.2)
    | .exn m =>
      (pev :: Event.log ("Failed: " ++ f ++ "\nError: " ++ m) :: tail.1, tail.2)

/-- `process_videos`: the full event trace of one batch — the per-file loop,
then `progress(100, "Done")`, then the `finished` summary
`f"Completed: {success}/{total} video(s) successful"`. -/
def process_videos (outcome : String → JobOutcome) (files : List String) :
    List Event :=
  let run := processVideosAux outcome files.length 0 files
  run.1 ++ [Event.progress 100 "Done",
    Event.finished ("Completed: " ++ toString run.2 ++ "/" ++
      toString files.length ++ " video(s) successful")]

/-! ### Extension filtering — `SUPPORTED_FORMATS` (line 32) and
`MainWindow.on_files_dropped` (lines 368-382) -/

/-- Line 32: the supported input extensions. -/
def SUPPORTED_FORMATS : List String :=
  [".mp4", ".avi", ".mkv", ".mov", ".wmv", ".flv", ".webm", ".m4v"]

/-- Line 371-372: `os.path.splitext(f)[1].lower() in SUPPORTED_FORMATS`. -/
def extSupported (f : String) : Bool :=
  SUPPORTED_FORMATS.contains ((String.mk (splitextExt f.data)).toLower)

/-- `on_files_dropped`: append each dropped file whose lower-cased extension
is supported and which is not already listed; everything else is silently
skipped.  Returns the updated `self.video_files`. -/
def on_files_dropped (videoFiles : List String) (files : List String) :
    List String :=
  files.foldl
    (fun acc f => if extSupported f ∧ ¬ acc.contains f then acc ++ [f] else acc)
    videoFiles

/-! ## Serializer lemmas -/

lemma segBlock_length (i : Nat) (s : Segment) : (segBlock i s).length = 5 := rfl

lemma saveSrtAux_length (i : Nat) (segs : List Segment) :
    (saveSrtAux i segs).length = 5 * segs.length := by
  induction segs generalizing i with
  | nil => simp [saveSrtAux]
  | cons s rest ih =>
    simp only [saveSrtAux, List.length_append, List.length_cons, segBlock_length, ih]
    ring

lemma saveSrtAux_getElem (segs : List Segment) :
    ∀ (i k r : Nat), r < 5 → (hk : k < segs.length) →
      (saveSrtAux i segs)[5 * k + r]? = (segBlock (i + k) segs[k])[r]? := by
  induction segs with
  | nil =>
    intro i k r _ hk
    exact absurd hk (by simp)
  | cons s rest ih =>
    intro i k r hr hk
    cases k with
    | zero =>
      show (segBlock i s ++ saveSrtAux (i + 1) rest)[5 * 0 + r]? = _
      rw [List.getElem?_append_left (by simp only [segBlock_length]; omega)]
      simp
    | succ k =>
      show (segBlock i s ++ saveSrtAux (i + 1) rest)[5 * (k + 1) + r]? = _
      rw [List.getElem?_append_right (by simp only [segBlock_length]; omega)]
      have hidx : 5 * (k + 1) + r - (segBlock i s).length = 5 * k + r := by
        simp only [segBlock_length]; omega
      rw [hidx, ih (i + 1) k r hr (by simpa using hk)]
      have : i + 1 + k = i + (k + 1) := by omega
      simp [this]

/-- C1: for every segment list in which every segment has `translated`
populated (and with no segments filtered — `save_srt` filters nothing), the
subtitle file has exactly `5 * segment_count` lines, and the block of the
`k`-th segment (0-based here, so its 1-based index is `k + 1`) is: the index,
the `start --> end` timecode line with both times rendered by
`format_time_srt`, the translated text, the original text, and a blank line,
in segment order. -/
theorem save_srt_five_lines_per_segment (segs : List Segment)
    (hpop : ∀ s ∈ segs, s.translated.isSome) :
    (save_srt segs).length = 5 * segs.length ∧
    ∀ k, (hk : k < segs.length) →
      (save_srt segs)[5 * k]? = some (toString (k + 1)) ∧
      (save_srt segs)[5 * k + 1]? =
        some (format_time_srt segs[k].start ++ " --> " ++
          format_time_srt segs[k].stop) ∧
      (save_srt segs)[5 * k + 2]? = segs[k].translated ∧
      (save_srt segs)[5 * k + 3]? = some segs[k].text ∧
      (save_srt segs)[5 * k + 4]? = some "" := by
  refine ⟨saveSrtAux_length 1 segs, fun k hk => ?_⟩
  have h0 := saveSrtAux_getElem segs 1 k 0 (by omega) hk
  have h1 := saveSrtAux_getElem segs 1 k 1 (by omega) hk
  have h2 := saveSrtAux_getElem segs 1 k 2 (by omega) hk
  have h3 := saveSrtAux_getElem segs 1 k 3 (by omega) hk
  have h4 := saveSrtAux_getElem segs 1 k 4 (by omega) hk
  have hcomm : 1 + k = k + 1 := by omega
  obtain ⟨t, ht⟩ :=
    Option.isSome_iff_exists.mp (hpop segs[k] (List.getElem_mem hk))
  refine ⟨?_, ?_, ?_, ?_, ?_⟩
  · rw [show 5 * k = 5 * k + 0 by omega]
    rw [save_srt, h0, hcomm]; rfl
  · rw [save_srt, h1]; rfl
  · rw [save_srt, h2, ht]; simp [segBlock, ht]
  · rw [save_srt, h3]; rfl
  · rw [save_srt, h4]; rfl

/-- Witness for C1 at a one-segment list with `translated` populated. -/
theorem save_srt_five_lines_per_segment_witness :
    (save_srt [⟨0, 1, "hi", some "zh"⟩]).length = 5 * 1 ∧
    (save_srt [⟨0, 1, "hi", some "zh"⟩])[5 * 0 + 2]? = some "zh" := by
  have h := save_srt_five_lines_per_segment [⟨0, 1, "hi", some "zh"⟩]
    (by intro s hs; simp at hs; subst hs; rfl)
  exact ⟨h.1, (h.2 0 (by decide)).2.2.1⟩

/-- C10: a segment that still lacks the `translated` key does not make
`save_srt` fail — `seg.get("translated", seg["text"])` puts the original text
in the translated-line position. -/
theorem save_srt_translated_fallback (segs : List Segment) (k : Nat)
    (hk : k < segs.length) (hmiss : segs[k].translated = none) :
    (save_srt segs)[5 * k + 2]? = some segs[k].text := by
  have h2 := saveSrtAux_getElem segs 1 k 2 (by omega) hk
  rw [save_srt, h2]
  simp [segBlock, hmiss]

/-- Witness for C10 at a one-segment list whose segment was never translated. -/
theorem save_srt_translated_fallback_witness :
    (save_srt [⟨0, 1, "raw text", none⟩])[5 * 0 + 2]? = some "raw text" := by
  exact save_srt_translated_fallback [⟨0, 1, "raw text", none⟩] 0 (by decide) rfl

/-! ## Segment Translator claims -/

/-- C2: when the translation collaborator raises on every call,
`translate_segments` still terminates normally (it is a total function — the
`try/except` in `translate_text` catches every collaborator exception) and
every segment ends with `translated` equal to its own `text`.  Segment texts
come from `transcribe_audio`, which strips them (line 82), which is the
`trim`-fixpoint hypothesis.  Stated as: the output is the input with
`translated := some text` on every segment. -/
theorem translate_segments_always_failing_collaborator
    (collab : Collaborator) (segs : List Segment)
    (hfail : ∀ t, collab t = none)
    (htrim : ∀ s ∈ segs, s.text.trim = s.text) :
    translate_segments collab segs =
      segs.map (fun s => { s with translated := some s.text }) := by
  induction segs with
  | nil => rfl
  | cons s rest ih =>
    have hs : s.text.trim = s.text := htrim s (by simp)
    have htt : translate_text collab s.text = s.text := by
      unfold translate_text
      by_cases he : s.text.trim = ""
      · rw [if_pos he]
        rw [he] at hs
        exact hs
      · rw [if_neg he, hfail s.text]
    simp only [translate_segments, List.map_cons, htt]
    exact congrArg _ (ih (fun x hx => htrim x (by simp [hx])))

/-- Witness for C2: a one-segment list against a collaborator that always
fails. -/
theorem translate_segments_always_failing_collaborator_witness :
    translate_segments (fun _ => none) [⟨0, 1, "hello", none⟩] =
      [⟨0, 1, "hello", some "hello"⟩] := by
  have h := translate_segments_always_failing_collaborator (fun _ => none)
    [⟨0, 1, "hello", none⟩] (fun _ => rfl)
    (by intro s hs; simp at hs; subst hs; with_unfolding_all decide)
  simpa using h

/-- C9: `translate_segments` preserves the segment count, the order, and the
`start`, `end` and `text` fields of every segment; its only modification is
setting `translated` (to `translate_text` of the segment's text). -/
theorem translate_segments_frame (collab : Collaborator) (segs : List Segment) :
    (translate_segments collab segs).length = segs.length ∧
    ∀ k : Nat,
      ((translate_segments collab segs)[k]?.map Segment.start =
        segs[k]?.map Segment.start) ∧
      ((translate_segments collab segs)[k]?.map Segment.stop =
        segs[k]?.map Segment.stop) ∧
      ((translate_segments collab segs)[k]?.map Segment.text =
        segs[k]?.map Segment.text) ∧
      ((translate_segments collab segs)[k]?.map Segment.translated =
        segs[k]?.map (fun s => some (translate_text collab s.text))) := by
  constructor
  · induction segs with
    | nil => rfl
    | cons s rest ih => simpa [translate_segments] using ih
  · intro k
    induction segs generalizing k with
    | nil => simp [translate_segments]
    | cons s rest ih =>
      cases k with
      | zero => simp [translate_segments]
      | succ k => simpa [translate_segments] using ih k

/-! ## Orchestrator claims -/

/-- C4: whichever output directory is given and whatever the other
collaborators would do, a job whose transcription comes back as an empty
segment sequence returns failure (`False`, not an exception) and writes no
file at all: no subtitle file and no output video. -/
theorem process_video_no_speech (env : JobEnv) (input : VPath)
    (outputDir : Option (List Char)) (hempty : env.transcribed = []) :
    process_video env input outputDir = (false, []) := by
  unfold process_video
  cases hex : env.extractOk with
  | false => simp [hex]
  | true => simp [hex, hempty]

/-- Witness for C4: a job where only the transcription is degenerate. -/
theorem process_video_no_speech_witness :
    process_video ⟨true, [], fun t => some t, true⟩
      ⟨"/v".data, "a.mp4".data⟩ none = (false, []) := by
  exact process_video_no_speech ⟨true, [], fun t => some t, true⟩
    ⟨"/v".data, "a.mp4".data⟩ none rfl

/-! ## Path lemmas -/

lemma rfindChar_spec (c : Char) (l : List Char) :
    ∀ i, rfindChar c l = some i → i < l.length ∧ l[i]? = some c := by
  induction l with
  | nil => intro i h; exact absurd h (by simp [rfindChar])
  | cons a as ih =>
    intro i h
    unfold rfindChar at h
    cases hrec : rfindChar c as with
    | some j =>
      rw [hrec] at h
      obtain ⟨hj, hget⟩ := ih j hrec
      cases h
      exact ⟨by simpa using hj, by simpa using hget⟩
    | none =>
      rw [hrec] at h
      by_cases hac : a = c
      · rw [if_pos hac] at h
        cases h
        simp [hac]
      · rw [if_neg hac] at h
        exact absurd h (by simp)

lemma pathStem_append_pathSuffix (name : List Char) :
    pathStem name ++ pathSuffix name = name := by
  unfold pathStem pathSuffix
  cases h : rfindChar '.' name with
  | none => simp
  | some i =>
    dsimp only
    by_cases hcond : 0 < i ∧ i + 1 < name.length
    · rw [if_pos hcond, if_pos hcond]
      exact List.take_append_drop i name
    · rw [if_neg hcond, if_neg hcond]
      simp

lemma pathSuffix_head (name : List Char) :
    pathSuffix name = [] ∨ (pathSuffix name).head? = some '.' := by
  unfold pathSuffix
  cases h : rfindChar '.' name with
  | none => exact Or.inl rfl
  | some i =>
    dsimp only
    by_cases hcond : 0 < i ∧ i + 1 < name.length
    · rw [if_pos hcond]
      right
      rw [List.head?_drop]
      exact (rfindChar_spec '.' name i h).2
    · rw [if_neg hcond]
      exact Or.inl rfl

lemma outputVideoName_ne (fname : List Char) : outputVideoName fname ≠ fname := by
  intro heq
  have hlen : (outputVideoName fname).length = fname.length := by rw [heq]
  unfold outputVideoName at hlen
  have hsplit := congrArg List.length (pathStem_append_pathSuffix fname)
  simp only [List.length_append, List.length_cons, List.length_nil] at hlen hsplit
  omega

lemma outputSrtName_ne (fname : List Char) : outputSrtName fname ≠ fname := by
  intro heq
  have heq2 : pathStem fname ++ "_subtitle.srt".data =
      pathStem fname ++ pathSuffix fname := by
    rw [outputSrtName] at heq
    rw [heq, pathStem_append_pathSuffix]
  have hsuf : "_subtitle.srt".data = pathSuffix fname :=
    List.append_cancel_left heq2
  rcases pathSuffix_head fname with hnil | hdot
  · rw [← hsuf] at hnil
    exact absurd hnil (by decide)
  · rw [← hsuf] at hdot
    exact absurd hdot (by decide)

/-- C5: with no explicit output directory, the input `/videos/clip.mp4`
resolves to the output video `/videos/clip_subtitle.mp4` and the subtitle file
`/videos/clip_subtitle.srt` (both in the input's directory), and for every
input path and every output-directory choice neither resolved output path
equals the input path. -/
theorem output_paths_deterministic_never_input :
    ((resolveOutputPaths ⟨"/videos".data, "clip.mp4".data⟩ none).1.render =
      "/videos/clip_subtitle.mp4" ∧
     (resolveOutputPaths ⟨"/videos".data, "clip.mp4".data⟩ none).2.render =
      "/videos/clip_subtitle.srt") ∧
    (∀ input : VPath, (resolveOutputPaths input none).1.dir = input.dir ∧
      (resolveOutputPaths input none).2.dir = input.dir) ∧
    ∀ (input : VPath) (outputDir : Option (List Char)),
      (resolveOutputPaths input outputDir).1 ≠ input ∧
      (resolveOutputPaths input outputDir).2 ≠ input := by
  refine ⟨⟨by decide, by decide⟩, fun input => ⟨rfl, rfl⟩, fun input odir => ⟨?_, ?_⟩⟩
  · intro heq
    exact outputVideoName_ne input.fname (congrArg VPath.fname heq)
  · intro heq
    exact outputSrtName_ne input.fname (congrArg VPath.fname heq)

/-- Witness for C5 (its universal part has no hypotheses; this instantiates
the never-overwrites-the-input part at a concrete path). -/
theorem output_paths_deterministic_never_input_witness :
    (resolveOutputPaths ⟨"/videos".data, "clip.mp4".data⟩ none).1 ≠
      ⟨"/videos".data, "clip.mp4".data⟩ := by
  exact (output_paths_deterministic_never_input.2.2
    ⟨"/videos".data, "clip.mp4".data⟩ none).1

/-! ## Extension-filter claims -/

lemma on_files_dropped_mem (files : List String) :
    ∀ (acc : List String) (f : String),
      f ∈ on_files_dropped acc files ↔
        f ∈ acc ∨ (f ∈ files ∧ extSupported f = true) := by
  induction files with
  | nil =>
    intro acc f
    simp [on_files_dropped]
  | cons g rest ih =>
    intro acc f
    rw [on_files_dropped, List.foldl_cons, ← on_files_dropped, ih]
    by_cases hok : extSupported g = true
    · by_cases hin : g ∈ acc
      · rw [if_neg (by simp [hok, hin])]
        constructor
        · rintro (h | h)
          · exact Or.inl h
          · exact Or.inr ⟨List.mem_cons_of_mem g h.1, h.2⟩
        · rintro (h | ⟨hmem, hsup⟩)
          · exact Or.inl h
          · rcases List.mem_cons.mp hmem with rfl | h2
            · exact Or.inl hin
            · exact Or.inr ⟨h2, hsup⟩
      · rw [if_pos (by simp [hok, hin])]
        constructor
        · rintro (h | h)
          · rcases List.mem_append.mp h with h1 | h1
            · exact Or.inl h1
            · rcases List.mem_singleton.mp h1 with rfl
              exact Or.inr ⟨List.mem_cons_self _ _, hok⟩
          · exact Or.inr ⟨List.mem_cons_of_mem g h.1, h.2⟩
        · rintro (h | ⟨hmem, hsup⟩)
          · exact Or.inl (List.mem_append.mpr (Or.inl h))
          · rcases List.mem_cons.mp hmem with rfl | h2
            · exact Or.inl (List.mem_append.mpr (Or.inr (List.mem_singleton.mpr rfl)))
            · exact Or.inr ⟨h2, hsup⟩
    · rw [if_neg (by simp [hok])]
      constructor
      · rintro (h | h)
        · exact Or.inl h
        · exact Or.inr ⟨List.mem_cons_of_mem g h.1, h.2⟩
      · rintro (h | ⟨hmem, hsup⟩)
        · exact Or.inl h
        · rcases List.mem_cons.mp hmem with rfl | h2
          · exact absurd hsup hok
          · exact Or.inr ⟨h2, hsup⟩

/-- C8: starting from an empty batch, a dropped collection of candidate files
is accepted exactly at those files whose extension matches one of the
supported formats case-insensitively; all others are silently excluded.  In
particular the folder `a.mp4`, `b.txt`, `c.MKV` yields exactly `a.mp4` and
`c.MKV`. -/
theorem on_files_dropped_filters_by_extension :
    (∀ (files : List String) (f : String),
      f ∈ on_files_dropped [] files ↔ f ∈ files ∧ extSupported f = true) ∧
    on_files_dropped [] ["a.mp4", "b.txt", "c.MKV"] = ["a.mp4", "c.MKV"] := by
  constructor
  · intro files f
    rw [on_files_dropped_mem files [] f]
    simp
  · with_unfolding_all decide

/-- Witness for C8: the membership characterization instantiated at the
excluded file `b.txt`. -/
theorem on_files_dropped_filters_by_extension_witness :
    ("b.txt" ∈ on_files_dropped [] ["a.mp4", "b.txt", "c.MKV"] ↔
      "b.txt" ∈ ["a.mp4", "b.txt", "c.MKV"] ∧ extSupported "b.txt" = true) := by
  exact on_files_dropped_filters_by_extension.1 ["a.mp4", "b.txt", "c.MKV"] "b.txt"

/-! ## Batch Runner claims -/

lemma processVideosAux_progress (oc : String → JobOutcome) (total : Nat) :
    ∀ (fs : List String) (i : Nat),
      (processVideosAux oc total i fs).1.filterMap Event.progressStatus =
        (fs.enumFrom i).map (fun p => processingMsg total p.1 p.2) := by
  intro fs
  induction fs with
  | nil => intro i; rfl
  | cons f rest ih =>
    intro i
    rw [List.enumFrom_cons]
    show (processVideosAux oc total i (f :: rest)).1.filterMap
      Event.progressStatus = _
    unfold processVideosAux
    cases h : oc f with
    | ok => simp [Event.progressStatus, ih (i + 1)]
    | fail => simp [Event.progressStatus, ih (i + 1)]
    | exn m => simp [Event.progressStatus, ih (i + 1)]

lemma processVideosAux_success (oc : String → JobOutcome) (total : Nat) :
    ∀ (fs : List String) (i : Nat),
      (processVideosAux oc total i fs).2 =
        (fs.filter (fun f => (oc f).isOk)).length := by
  intro fs
  induction fs with
  | nil => intro i; rfl
  | cons f rest ih =>
    intro i
    unfold processVideosAux
    cases h : oc f with
    | ok => simp [List.filter_cons, h, JobOutcome.isOk, ih (i + 1)]
    | fail => simp [List.filter_cons, h, JobOutcome.isOk, ih (i + 1)]
    | exn m => simp [List.filter_cons, h, JobOutcome.isOk, ih (i + 1)]

lemma processVideosAux_exn_logged (oc : String → JobOutcome) (total : Nat) :
    ∀ (fs : List String) (i : Nat) (f : String), f ∈ fs →
      ∀ m, oc f = .exn m →
        Event.log ("Failed: " ++ f ++ "\nError: " ++ m) ∈
          (processVideosAux oc total i fs).1 := by
  intro fs
  induction fs with
  | nil => intro i f hf; exact absurd hf (by simp)
  | cons g rest ih =>
    intro i f hf m hm
    unfold processVideosAux
    rcases List.mem_cons.mp hf with rfl | hf2
    · rw [hm]
      simp
    · cases h : oc g with
      | ok => simpa using ih (i + 1) f hf2 m hm
      | fail => simpa using ih (i + 1) f hf2 m hm
      | exn m2 =>
        simpa using Or.inr (ih (i + 1) f hf2 m hm)

/-- C3 (amended): the batch loop visits every file in order with no early
abort — its progress-status trace is exactly the per-file `Processing
(index/total): basename` lines in input order followed by `"Done"` — the
final event is the `finished` summary whose success count is the number of
files whose job returned `True` out of the full total, and every file whose
job raised an exception is logged with its path.  (Files whose job merely
returned `False` produce no runner log line; see the counterexample.) -/
theorem process_videos_batch_report (oc : String → JobOutcome)
    (files : List String) :
    ((process_videos oc files).filterMap Event.progressStatus =
      (files.enumFrom 0).map (fun p => processingMsg files.length p.1 p.2) ++
        ["Done"]) ∧
    ((process_videos oc files).getLast? =
      some (Event.finished ("Completed: " ++
        toString (files.filter (fun f => (oc f).isOk)).length ++ "/" ++
        toString files.length ++ " video(s) successful"))) ∧
    ∀ f ∈ files, ∀ m, oc f = .exn m →
      Event.log ("Failed: " ++ f ++ "\nError: " ++ m) ∈ process_videos oc files := by
  refine ⟨?_, ?_, ?_⟩
  · rw [process_videos]
    rw [List.filterMap_append, processVideosAux_progress oc files.length files 0]
    rfl
  · rw [process_videos]
    rw [processVideosAux_success oc files.length files 0]
    rw [show ∀ (l : List Event) (a b : Event), l ++ [a, b] = (l ++ [a]) ++ [b]
      from fun l a b => by simp, List.getLast?_concat]
  · intro f hf m hm
    rw [process_videos]
    exact List.mem_append.mpr
      (Or.inl (processVideosAux_exn_logged oc files.length files 0 f hf m hm))

/-- Witness for C3: a three-file batch where the first job succeeds, the
second returns `False` and the third raises; the raised failure is logged
with its path and the summary reports 1 of 3. -/
theorem process_videos_batch_report_witness :
    Event.log ("Failed: c.mp4\nError: boom") ∈
      process_videos
        (fun f => if f = "c.mp4" then .exn "boom"
          else if f = "b.mp4" then .fail else .ok)
        ["a.mp4", "b.mp4", "c.mp4"] := by
  exact (process_videos_batch_report
    (fun f => if f = "c.mp4" then .exn "boom"
      else if f = "b.mp4" then .fail else .ok)
    ["a.mp4", "b.mp4", "c.mp4"]).2.2 "c.mp4" (by simp) "boom" (by decide)

/-- C3 counterexample: in a two-file batch where the second job fails by
returning `False` (as a transcoding failure does — `process_video` returns
`False` without raising), the batch reports 1 of 2 but emits no `log` event
at all, so the failing file is never logged with its filename by the Batch
Runner. -/
theorem process_videos_returned_failure_not_logged :
    ((process_videos (fun f => if f = "a.mp4" then .ok else .fail)
        ["a.mp4", "b.mp4"]).all (fun e => !e.isLog) = true) ∧
    ((fun f => if f = "a.mp4" then JobOutcome.ok else .fail) "b.mp4" =
      JobOutcome.fail) ∧
    ((process_videos (fun f => if f = "a.mp4" then .ok else .fail)
        ["a.mp4", "b.mp4"]).getLast? =
      some (Event.finished "Completed: 1/2 video(s) successful")) := by
  refine ⟨?_, by decide, ?_⟩
  · with_unfolding_all decide
  · with_unfolding_all decide

/-! ## Time-code Formatter lemmas -/

lemma pyInt_of_nonneg (q : ℚ) (h : 0 ≤ q) : pyInt q = ⌊q⌋ := by
  unfold pyInt
  rw [if_neg (not_lt.mpr h)]

lemma pyInt_intCast (n : ℤ) : pyInt (n : ℚ) = n := by
  unfold pyInt
  by_cases hn : (n : ℚ) < 0
  · rw [if_pos hn, ← Int.cast_neg, Int.floor_intCast, neg_neg]
  · rw [if_neg hn, Int.floor_intCast]

lemma pyMod_nonneg_lt (a d : ℚ) (hd : 0 < d) : 0 ≤ pyMod a d ∧ pyMod a d < d := by
  have hfl : (⌊a / d⌋ : ℚ) ≤ a / d := Int.floor_le _
  have hfu : a / d < (⌊a / d⌋ : ℚ) + 1 := Int.lt_floor_add_one _
  have hda : d * (a / d) = a := by
    field_simp
  have hlow := mul_le_mul_of_nonneg_left hfl hd.le
  have hhigh := (mul_lt_mul_left hd).mpr hfu
  have hexp : d * ((⌊a / d⌋ : ℚ) + 1) = d * (⌊a / d⌋ : ℚ) + d := by ring
  unfold pyMod
  constructor
  · linarith
  · linarith

lemma natChars_length_le (n w : Nat) (hw : 0 < w) (hn : n < 10 ^ w) :
    (natChars n).length ≤ w := by
  have hr : (Nat.repr n).length = (natChars n).length := rfl
  have := Nat.repr_length n w hw hn
  omega

lemma fmtNatChars_length (w n : Nat) (hw : 0 < w) (hn : n < 10 ^ w) :
    (fmtNatChars w n).length = w := by
  have hle := natChars_length_le n w hw hn
  unfold fmtNatChars
  rw [List.length_append, List.length_replicate]
  omega

lemma fmtNatChars_two_head :
    ∀ n < 100, ¬ (fmtNatChars 2 n).head? = some ('-') := by
  decide

/-- Field values and bounds of the formatter on the non-negative two-digit-hour
domain: each field is a genuine zero-padded natural number of the right
magnitude. -/
lemma format_time_structure (t : ℚ) (h0 : 0 ≤ t) (h1 : t < 360000) :
    ∃ h m s ms : Nat, h < 100 ∧ m < 60 ∧ s < 60 ∧ ms < 1000 ∧
      format_time_srt t =
        String.mk (fmtNatChars 2 h ++ ':' :: fmtNatChars 2 m ++ ':' ::
          fmtNatChars 2 s ++ ',' :: fmtNatChars 3 ms) := by
  have h3600 : (0:ℚ) < 3600 := by norm_num
  have h60 : (0:ℚ) < 60 := by norm_num
  -- hours
  have hH : srtHours t = ⌊t / 3600⌋ := by
    unfold srtHours pyFloorDiv
    exact pyInt_intCast _
  have hH0 : 0 ≤ srtHours t := by
    rw [hH]
    exact Int.floor_nonneg.mpr (div_nonneg h0 h3600.le)
  have hH1 : srtHours t < 100 := by
    rw [hH]
    refine Int.floor_lt.mpr ?_
    rw [div_lt_iff₀ h3600]
    push_cast
    linarith
  -- minutes
  have hMbounds := pyMod_nonneg_lt t 3600 h3600
  have hM : srtMinutes t = ⌊pyMod t 3600 / 60⌋ := by
    unfold srtMinutes pyFloorDiv
    exact pyInt_intCast _
  have hM0 : 0 ≤ srtMinutes t := by
    rw [hM]
    exact Int.floor_nonneg.mpr (div_nonneg hMbounds.1 h60.le)
  have hM1 : srtMinutes t < 60 := by
    rw [hM]
    refine Int.floor_lt.mpr ?_
    rw [div_lt_iff₀ h60]
    push_cast
    linarith [hMbounds.2]
  -- seconds
  have hSbounds := pyMod_nonneg_lt t 60 h60
  have hS : srtSecs t = ⌊pyMod t 60⌋ := pyInt_of_nonneg _ hSbounds.1
  have hS0 : 0 ≤ srtSecs t := by
    rw [hS]
    exact Int.floor_nonneg.mpr hSbounds.1
  have hS1 : srtSecs t < 60 := by
    rw [hS]
    refine Int.floor_lt.mpr ?_
    push_cast
    linarith [hSbounds.2]
  -- milliseconds
  have hIT : pyInt t = ⌊t⌋ := pyInt_of_nonneg t h0
  have hfr0 : 0 ≤ t - (⌊t⌋ : ℚ) := by
    have := Int.floor_le t
    linarith
  have hfr1 : t - (⌊t⌋ : ℚ) < 1 := by
    have := Int.lt_floor_add_one t
    linarith
  have hMs : srtMillis t = ⌊(t - (⌊t⌋ : ℚ)) * 1000⌋ := by
    unfold srtMillis
    rw [hIT]
    exact pyInt_of_nonneg _ (by nlinarith)
  have hMs0 : 0 ≤ srtMillis t := by
    rw [hMs]
    exact Int.floor_nonneg.mpr (by nlinarith)
  have hMs1 : srtMillis t < 1000 := by
    rw [hMs]
    refine Int.floor_lt.mpr ?_
    push_cast
    nlinarith
  -- assemble
  refine ⟨(srtHours t).toNat, (srtMinutes t).toNat, (srtSecs t).toNat,
    (srtMillis t).toNat, by omega, by omega, by omega, by omega, ?_⟩
  unfold format_time_srt
  have eH : fmtIntChars 2 (srtHours t) = fmtNatChars 2 (srtHours t).toNat := by
    unfold fmtIntChars
    rw [if_neg (not_lt.mpr hH0), show (srtHours t).natAbs = (srtHours t).toNat by omega]
  have eM : fmtIntChars 2 (srtMinutes t) = fmtNatChars 2 (srtMinutes t).toNat := by
    unfold fmtIntChars
    rw [if_neg (not_lt.mpr hM0), show (srtMinutes t).natAbs = (srtMinutes t).toNat by omega]
  have eS : fmtIntChars 2 (srtSecs t) = fmtNatChars 2 (srtSecs t).toNat := by
    unfold fmtIntChars
    rw [if_neg (not_lt.mpr hS0), show (srtSecs t).natAbs = (srtSecs t).toNat by omega]
  have eMs : fmtIntChars 3 (srtMillis t) = fmtNatChars 3 (srtMillis t).toNat := by
    unfold fmtIntChars
    rw [if_neg (not_lt.mpr hMs0), show (srtMillis t).natAbs = (srtMillis t).toNat by omega]
  rw [eH, eM, eS, eMs]

/-- On the non-negative two-digit-hour domain the formatter output has
exactly 12 characters. -/
lemma format_time_length (t : ℚ) (h0 : 0 ≤ t) (h1 : t < 360000) :
    (format_time_srt t).length = 12 := by
  obtain ⟨h, m, s, ms, hh, hm, hs, hms, heq⟩ := format_time_structure t h0 h1
  rw [heq]
  rw [String.length_mk]
  simp only [List.length_append, List.length_cons]
  rw [fmtNatChars_length 2 h (by norm_num) (by omega),
    fmtNatChars_length 2 m (by norm_num) (by omega),
    fmtNatChars_length 2 s (by norm_num) (by omega),
    fmtNatChars_length 3 ms (by norm_num) (by omega)]

/-- On the non-negative two-digit-hour domain the output never starts with a
minus sign. -/
lemma format_time_nonneg_head (u : ℚ) (h0 : 0 ≤ u) (h1 : u < 360000) :
    ¬ (format_time_srt u).data.head? = some ('-') := by
  obtain ⟨h, m, s, ms, hh, hm, hs, hms, heq⟩ := format_time_structure u h0 h1
  rw [heq]
  dsimp only
  have hlen := fmtNatChars_length 2 h (by norm_num) (by omega)
  have hne := fmtNatChars_two_head h hh
  have hnil : fmtNatChars 2 h ≠ [] := by
    intro hl
    rw [hl] at hlen
    simp at hlen
  obtain ⟨a, as, hcons⟩ := List.exists_cons_of_ne_nil hnil
  rw [hcons] at hne
  rw [hcons]
  simpa using hne

/-- C6 (amended): the formatter maps 0 to `"00:00:00,000"` and 3725.25 to
`"01:02:05,250"`, and on every non-negative input below 100 hours (360000
seconds) produces the fixed-width zero-padded `HH:MM:SS,mmm` form: 12
characters, with two-digit hour, minute and second fields and a three-digit
millisecond field.  (At 100 hours and beyond the hour field takes three or
more digits — see the counterexample.) -/
theorem format_time_fixed_width :
    format_time_srt 0 = "00:00:00,000" ∧
    format_time_srt 3725.25 = "01:02:05,250" ∧
    ∀ t : ℚ, 0 ≤ t → t < 360000 →
      (format_time_srt t).length = 12 ∧
      ∃ h m s ms : Nat, h < 100 ∧ m < 60 ∧ s < 60 ∧ ms < 1000 ∧
        format_time_srt t =
          String.mk (fmtNatChars 2 h ++ ':' :: fmtNatChars 2 m ++ ':' ::
            fmtNatChars 2 s ++ ',' :: fmtNatChars 3 ms) :=
  ⟨by with_unfolding_all decide, by with_unfolding_all decide,
    fun t h0 h1 => ⟨format_time_length t h0 h1, format_time_structure t h0 h1⟩⟩

/-- Witness for C6 at the concrete input 2 seconds. -/
theorem format_time_fixed_width_witness : (format_time_srt 2).length = 12 :=
  (format_time_fixed_width.2.2 2 (by with_unfolding_all decide)
    (by with_unfolding_all decide)).1

/-- C6 counterexample: at 100 hours the claimed fixed two-digit-hour width
fails — the output has 13 characters, the hour field being `"100"`. -/
theorem format_time_hour_overflow :
    format_time_srt 360000 = "100:00:00,000" ∧
    (format_time_srt 360000).length = 13 := by
  constructor
  · with_unfolding_all decide
  · with_unfolding_all decide

/-- C7 (amended): on negative input the formatter neither signals an error
nor clamps: it is total (a plain pure function) but emits a malformed
time-code whose first character is a minus sign — the floored hours go
negative while minutes and seconds wrap modulo — so its output differs from
the output of every non-negative input of the two-digit-hour domain
(e.g. `format_time_srt (-1) = "-1:59:59,000"`). -/
theorem format_time_negative_behavior :
    ∀ t : ℚ, t < 0 →
      (format_time_srt t).data.head? = some '-' ∧
      ∀ u : ℚ, 0 ≤ u → u < 360000 → format_time_srt t ≠ format_time_srt u := by
  intro t ht
  have hH : srtHours t = ⌊t / 3600⌋ := by
    unfold srtHours pyFloorDiv
    exact pyInt_intCast _
  have hneg : srtHours t < 0 := by
    rw [hH]
    refine Int.floor_lt.mpr ?_
    push_cast
    exact div_neg_of_neg_of_pos ht (by norm_num)
  have hdash : fmtIntChars 2 (srtHours t) = '-' :: fmtNatChars 1 (srtHours t).natAbs := by
    unfold fmtIntChars
    rw [if_pos hneg]
  have hhead : (format_time_srt t).data.head? = some '-' := by
    unfold format_time_srt
    dsimp only
    rw [hdash]
    rfl
  refine ⟨hhead, fun u h0 h1 hequ => ?_⟩
  have h2 := format_time_nonneg_head u h0 h1
  rw [← hequ] at h2
  exact h2 hhead

/-- Witness for C7 at `t = -1`, `u = 0`. -/
theorem format_time_negative_behavior_witness :
    format_time_srt (-1) ≠ format_time_srt 0 :=
  (format_time_negative_behavior (-1) (by with_unfolding_all decide)).2 0
    (by with_unfolding_all decide) (by with_unfolding_all decide)

/-- C7 counterexample: the formatter neither rejects `-1` (it returns a
string) nor clamps it — its output `"-1:59:59,000"` coincides with the output
of no non-negative input of the two-digit-hour domain. -/
theorem format_time_negative_not_clamped :
    format_time_srt (-1) = "-1:59:59,000" ∧ ¬ clampsNegativeInput := by
  refine ⟨by with_unfolding_all decide, ?_⟩
  rintro ⟨u, h0, h1, heq⟩
  have hhead : (format_time_srt (-1)).data.head? = some '-' := by
    with_unfolding_all decide
  rw [heq] at hhead
  exact format_time_nonneg_head u h0 h1 hhead

end VideoTranslation
